import Mathlib

/-!
Verification of the Conjugat verb-trainer core: a shallow embedding of the
dataset build script, the dataset validator, and the in-app prompt engine
(person/tense/verb-type filters, random prompt selection, per-character
answer feedback), with theorems about the properties the specification
states for them.

JavaScript strings are modelled as Lean `String`; JS objects used as string
keyed records are modelled as association lists `List (String × α)` (key
order = insertion order) or, for fixed-shape records, as structures; JS
`null`/`undefined` is modelled with `Option`; boolean-ish truthiness tests
on strings compare against the empty string.
-/

/-- String helper modelling the JavaScript endsWith test, defined on the
character list so that it evaluates by kernel reduction. -/
def strEndsWith (s suffix : String) : Bool :=
  List.isSuffixOf suffix.toList s.toList

/-- String helper modelling the JavaScript slice(0, -n) (drop the last n
characters, empty result when the string is shorter than n). -/
def strDropRight (s : String) (n : Nat) : String :=
  String.mk (s.toList.take (s.toList.length - n))

/-- String helper modelling the JavaScript startsWith test. -/
def strStartsWith (s pre : String) : Bool :=
  List.isPrefixOf pre.toList s.toList

/-- Whitespace class used for the JavaScript regex class of space characters
and for trim (space, tab, newline, carriage return, form feed, vertical
tab; the unicode space code points do not occur in this pipeline). -/
def isSpaceChar (c : Char) : Bool :=
  c = ' ' || c = '\t' || c = '\n' || c = '\r' || c = '\x0b' || c = '\x0c'

/-- String helper modelling the JavaScript trim (strip leading and trailing
whitespace). -/
def strTrim (s : String) : String :=
  String.mk (((s.toList.dropWhile isSpaceChar).reverse.dropWhile isSpaceChar).reverse)

/-- Fixed list of grammatical persons, in source order (both the app and the
build scripts declare the same list). -/
def PERSONS : List String := ["jo", "tu", "ell", "nosaltres", "vosaltres", "ells"]

/-- Fixed list of tenses used by the app, in source order. -/
def TENSES : List String := ["present", "imperfect", "future", "conditional"]

/-- App function getVerbGroup: morphological group from the ending of the
infinitive (endsWith checks in source order, defaulting to the ar group). -/
def getVerbGroup (infinitive : String) : String :=
  if strEndsWith infinitive "ar" then "ar"
  else if strEndsWith infinitive "ir" then "ir"
  else if strEndsWith infinitive "er" || strEndsWith infinitive "re" then "er"
  else "ar"

/-- App function regularPresent: present-tense form from the stem
(infinitive minus its last two characters) and the group; the person lookup
in the source returns the empty string for a person outside the fixed six. -/
def regularPresent (infinitive group person : String) : String :=
  let stem := strDropRight infinitive 2
  if group = "ar" then
    if person = "jo" then stem ++ "o"
    else if person = "tu" then stem ++ "es"
    else if person = "ell" then stem ++ "a"
    else if person = "nosaltres" then stem ++ "em"
    else if person = "vosaltres" then stem ++ "eu"
    else if person = "ells" then stem ++ "en"
    else ""
  else if group = "ir" then
    if person = "jo" then stem ++ "o"
    else if person = "tu" then stem ++ "s"
    else if person = "ell" then stem
    else if person = "nosaltres" then stem ++ "im"
    else if person = "vosaltres" then stem ++ "iu"
    else if person = "ells" then stem ++ "en"
    else ""
  else
    if person = "jo" then stem ++ "o"
    else if person = "tu" then stem ++ "s"
    else if person = "ell" then stem
    else if person = "nosaltres" then stem ++ "em"
    else if person = "vosaltres" then stem ++ "eu"
    else if person = "ells" then stem ++ "en"
    else ""

/-- App function regularImperfect: imperfect-tense form from the stem and
the group. -/
def regularImperfect (infinitive group person : String) : String :=
  let stem := strDropRight infinitive 2
  if group = "ar" then
    if person = "jo" then stem ++ "ava"
    else if person = "tu" then stem ++ "aves"
    else if person = "ell" then stem ++ "ava"
    else if person = "nosaltres" then stem ++ "àvem"
    else if person = "vosaltres" then stem ++ "àveu"
    else if person = "ells" then stem ++ "aven"
    else ""
  else
    if person = "jo" then stem ++ "ia"
    else if person = "tu" then stem ++ "ies"
    else if person = "ell" then stem ++ "ia"
    else if person = "nosaltres" then stem ++ "íem"
    else if person = "vosaltres" then stem ++ "íeu"
    else if person = "ells" then stem ++ "ien"
    else ""

/-- App function regularFuture: future-tense form built on the full
infinitive. -/
def regularFuture (infinitive person : String) : String :=
  if person = "jo" then infinitive ++ "é"
  else if person = "tu" then infinitive ++ "às"
  else if person = "ell" then infinitive ++ "à"
  else if person = "nosaltres" then infinitive ++ "em"
  else if person = "vosaltres" then infinitive ++ "eu"
  else if person = "ells" then infinitive ++ "an"
  else ""

/-- App function regularConditional: conditional-tense form built on the
full infinitive. -/
def regularConditional (infinitive person : String) : String :=
  if person = "jo" then infinitive ++ "ia"
  else if person = "tu" then infinitive ++ "ies"
  else if person = "ell" then infinitive ++ "ia"
  else if person = "nosaltres" then infinitive ++ "íem"
  else if person = "vosaltres" then infinitive ++ "íeu"
  else if person = "ells" then infinitive ++ "ien"
  else ""

/-- Association-list lookup modelling access to a JS object property or Map
entry (first binding of the key wins; keys in insertion order). -/
def lookupA {α : Type} (m : List (String × α)) (k : String) : Option α :=
  (m.find? (fun p => p.1 = k)).map (fun p => p.2)

/-- One entry of the verbs.json dataset as the app reads it. Fields the app
accesses defensively (regular, group, present, tenses) are optional. -/
structure Verb where
  infinitive : String
  translation : String
  regular : Option Bool
  group : Option String
  rank : Option Nat
  present : Option (List (String × String))
  tenses : Option (List (String × List (String × String)))
deriving DecidableEq

/-- Truthiness test the app uses for regularity: verb.regular !== false
(an absent flag counts as regular). -/
def isRegularVerb (v : Verb) : Bool :=
  !(v.regular = some false)

/-- Stored-table lookup chain verb.tenses[tense]?.[person] from the app's
getConjugation. -/
def tenseLookup (v : Verb) (tense person : String) : Option String :=
  match v.tenses with
  | none => none
  | some ts =>
    match lookupA ts tense with
    | none => none
    | some block => lookupA block person

/-- App function getConjugation: return the stored table form when present
and non-empty (JS truthiness), otherwise fall back to the regular-form
generator for the verb group; the legacy verb.present fallback uses nullish
coalescing, so an explicitly stored empty present form is returned as is. -/
def getConjugation (v : Verb) (tense person : String) : String :=
  if (tenseLookup v tense person).getD "" ≠ "" then (tenseLookup v tense person).getD ""
  else
    let group := v.group.getD (getVerbGroup v.infinitive)
    if tense = "present" then
      match v.present.bind (fun m => lookupA m person) with
      | some s => s
      | none => regularPresent v.infinitive group person
    else if tense = "imperfect" then regularImperfect v.infinitive group person
    else if tense = "future" then regularFuture v.infinitive person
    else if tense = "conditional" then regularConditional v.infinitive person
    else ""

/-- One question instance: verb, person, tense and the derived repeat key. -/
structure Prompt where
  verb : Verb
  person : String
  tense : String
  key : String
deriving DecidableEq

/-- Repeat-detection key as built in pickNextPrompt. -/
def promptKey (v : Verb) (person tense : String) : String :=
  v.infinitive ++ "-" ++ person ++ "-" ++ tense

/-- Verb-type filter from pickNextPrompt: a regular verb passes when the
regular toggle is on, an irregular one when the irregular toggle is on. -/
def filteredVerbs (verbs : List Verb) (verbFilters : String → Bool) : List Verb :=
  verbs.filter (fun v => if isRegularVerb v then verbFilters "regular" else verbFilters "irregular")

/-- Enabled persons in PERSONS order, as pickNextPrompt computes them. -/
def enabledPersonList (enabledPersons : String → Bool) : List String :=
  PERSONS.filter enabledPersons

/-- Enabled tenses in TENSES order, as pickNextPrompt computes them. -/
def enabledTenseListOf (enabledTenses : String → Bool) : List String :=
  TENSES.filter enabledTenses

/-- Placeholder verb for the unreachable out-of-range list access in the
random draw (the draw index is reduced modulo a non-zero length). -/
def defaultVerb : Verb :=
  ⟨"", "", none, none, none, none, none⟩

/-- One iteration of pickNextPrompt's loop body: draw a verb, a person and a
tense at random and build the instance. Math.floor(Math.random()*len) is an
arbitrary index below len; the oracle rand supplies the three choices of
iteration i as naturals, reduced modulo the list lengths. -/
def drawPrompt (fv : List Verb) (persons tenses : List String)
    (rand : Nat → Nat × Nat × Nat) (i : Nat) : Prompt :=
  let r := rand i
  let verb := fv.getD (r.1 % fv.length) defaultVerb
  let person := persons.getD (r.2.1 % persons.length) ""
  let tense := tenses.getD (r.2.2 % tenses.length) ""
  ⟨verb, person, tense, promptKey verb person tense⟩

/-- Retry loop of pickNextPrompt for a non-null lastKey: after the draw of
iteration i the tries counter equals i + 1 and the loop repeats while the
drawn key equals lastKey and tries < 10, so the fuel argument (remaining
permitted retries, initially 9) makes the tenth draw the last one, returned
even when its key still equals lastKey. -/
def pickLoop (fv : List Verb) (persons tenses : List String) (lastKey : String)
    (rand : Nat → Nat × Nat × Nat) : Nat → Nat → Prompt
  | i, 0 => drawPrompt fv persons tenses rand i
  | i, fuel + 1 =>
    let next := drawPrompt fv persons tenses rand i
    if next.key = lastKey then pickLoop fv persons tenses lastKey rand (i + 1) fuel
    else next

/-- App function pickNextPrompt: null when no person is enabled, no tense is
enabled, or no verb passes the verb-type filter; otherwise draw instances at
random, retrying (at most 10 draws in total) while the drawn key equals the
supplied lastKey. A null lastKey (modelled as none; the JS test is
truthiness, and keys are never the empty string) accepts the first draw. -/
def pickNextPrompt (verbs : List Verb) (enabledPersons enabledTenses verbFilters : String → Bool)
    (lastKey : Option String) (rand : Nat → Nat × Nat × Nat) : Option Prompt :=
  let enabled := enabledPersonList enabledPersons
  let tenseList := enabledTenseListOf enabledTenses
  if enabled.length = 0 then none
  else if tenseList.length = 0 then none
  else
    let fv := filteredVerbs verbs verbFilters
    if fv.length = 0 then none
    else
      some (match lastKey with
        | none => drawPrompt fv enabled tenseList rand 0
        | some lk => pickLoop fv enabled tenseList lk rand 0 9)

/-- Shared shape of the app's three filter-toggle state updaters: when the
key is currently enabled and exactly one key of its group is enabled, the
previous state object is returned unchanged; otherwise the key is flipped.
Object.values enumerates exactly the fixed keys of the group, in order. -/
def toggleFlags (keys : List String) (prev : String → Bool) (key : String) : String → Bool :=
  let enabledCount := (keys.filter prev).length
  if prev key = true ∧ enabledCount = 1 then prev
  else fun k => if k = key then !prev k else prev k

/-- App updater togglePerson (the state update passed to setEnabledPersons). -/
def togglePerson (prev : String → Bool) (person : String) : String → Bool :=
  toggleFlags PERSONS prev person

/-- App updater toggleTense (the state update passed to setEnabledTenses). -/
def toggleTense (prev : String → Bool) (tense : String) : String → Bool :=
  toggleFlags TENSES prev tense

/-- Keys of the verb-type toggle pair, in declaration order. -/
def VERB_FILTER_KEYS : List String := ["regular", "irregular"]

/-- App updater toggleVerbFilter (the state update passed to setVerbFilters). -/
def toggleVerbFilter (prev : String → Bool) (key : String) : String → Bool :=
  toggleFlags VERB_FILTER_KEYS prev key

/-- Unicode simple lowercase map for the Basic Latin and Latin-1 letters this
app can encounter, modelling the JS per-character toLowerCase. -/
def lowerChar (c : Char) : Char :=
  if ('A' ≤ c ∧ c ≤ 'Z') ∨ (('À' ≤ c ∧ c ≤ 'Þ') ∧ c ≠ '×') then Char.ofNat (c.toNat + 32)
  else c

/-- Lowercasing a string character by character (JS toLowerCase; no
character of this repertoire expands under lowercasing). -/
def jsToLower (s : String) : String :=
  String.mk (s.toList.map lowerChar)

/-- Diacritic removal for one character: models NFD normalization followed
by deletion of the combining marks U+0300 to U+036F, for the Latin-1 letter
repertoire of Catalan text; other characters decompose to themselves. -/
def stripAccentChar (c : Char) : Char :=
  match c with
  | 'à' | 'á' | 'â' | 'ä' => 'a'
  | 'è' | 'é' | 'ê' | 'ë' => 'e'
  | 'ì' | 'í' | 'î' | 'ï' => 'i'
  | 'ò' | 'ó' | 'ô' | 'ö' => 'o'
  | 'ù' | 'ú' | 'û' | 'ü' => 'u'
  | 'ç' => 'c'
  | 'ñ' => 'n'
  | 'À' | 'Á' | 'Â' | 'Ä' => 'A'
  | 'È' | 'É' | 'Ê' | 'Ë' => 'E'
  | 'Ì' | 'Í' | 'Î' | 'Ï' => 'I'
  | 'Ò' | 'Ó' | 'Ô' | 'Ö' => 'O'
  | 'Ù' | 'Ú' | 'Û' | 'Ü' => 'U'
  | 'Ç' => 'C'
  | 'Ñ' => 'N'
  | _ => c

/-- App function stripAccents. -/
def stripAccents (s : String) : String :=
  String.mk (s.toList.map stripAccentChar)

/-- App function baseChar: lowercase then strip accents. -/
def baseChar (s : String) : String :=
  stripAccents (jsToLower s)

/-- App function getStatus: per-character feedback colour for a typed
character against the expected character at that position (characters are
one-character JS strings; an absent typed character is the empty string). -/
def getStatus (typedChar expectedChar : String) (isHinted : Bool) : String :=
  if typedChar = "" then "empty"
  else if isHinted then "yellow"
  else
    let typedLower := jsToLower typedChar
    let expectedLower := jsToLower expectedChar
    if typedLower = expectedLower then "green"
    else if baseChar typedLower = baseChar expectedLower then "yellow"
    else "red"

/-- Modelled from the spec: the app has no listValidInstances function (only
the pickNextPrompt sampler exists), so the valid-instance enumeration of
section 4.8 is defined here from the spec's words: for each verb passing the
verb-type filter, for each enabled tense and each enabled person, include
the instance when a non-empty form resolves (stored table falling back to
the regular generator), iterating verbs, then tenses, then persons. The
rank-limit filter the spec names has no counterpart in the app state and is
omitted. -/
def listValidInstances (verbs : List Verb)
    (enabledPersons enabledTenses verbFilters : String → Bool) : List Prompt :=
  (filteredVerbs verbs verbFilters).flatMap (fun v =>
    (enabledTenseListOf enabledTenses).flatMap (fun t =>
      (enabledPersonList enabledPersons).filterMap (fun p =>
        if getConjugation v t p = "" then none
        else some ⟨v, p, t, promptKey v p t⟩)))

/-- Modelled from the spec: existence check over the valid instances
(section 4.8, hasAnyValidInstance false exactly when listValidInstances is
empty). -/
def hasAnyValidInstance (verbs : List Verb)
    (enabledPersons enabledTenses verbFilters : String → Bool) : Bool :=
  !(listValidInstances verbs enabledPersons enabledTenses verbFilters).isEmpty

/-- Build-script function getGroup (unlike the app's getVerbGroup it has no
re test: everything that is neither ar nor ir is the er group). -/
def getGroup (infinitive : String) : String :=
  if strEndsWith infinitive "ar" then "ar"
  else if strEndsWith infinitive "ir" then "ir"
  else "er"

/-- Build-script function isVerbCandidate: single word, no hyphen or
apostrophe, not reflexive-marked (any se ending), with a valid infinitive
suffix. -/
def isVerbCandidate (word : String) : Bool :=
  if word = "" then false
  else if word.toList.contains ' ' then false
  else if word.toList.contains '-' then false
  else if word.toList.contains '\'' then false
  else if strEndsWith word "-se" || strEndsWith word "se" then false
  else strEndsWith word "ar" || strEndsWith word "er" || strEndsWith word "re" || strEndsWith word "ir"

/-- First segment of a string before a separator character (JS
split(sep)[0]). -/
def splitFirst (s : String) (sep : Char) : String :=
  String.mk (s.toList.takeWhile (fun c => c ≠ sep))

/-- Build-script function normalizeTranslation: take the gloss before the
first semicolon and comma, trim it, and prefix it with the English
infinitive marker unless already present; falsy or all-separator values are
returned unchanged. -/
def normalizeTranslation (value : String) : String :=
  if value = "" then value
  else
    let cleaned := strTrim (splitFirst (splitFirst value ';') ',')
    if cleaned = "" then value
    else if strStartsWith cleaned "to " then cleaned
    else "to " ++ cleaned

/-- Orthographic-alternation test, the build script regex (car|gar|çar)$
with the ignore-case flag (modelled by lowercasing first). -/
def isOrthographic (word : String) : Bool :=
  let w := jsToLower word
  strEndsWith w "car" || strEndsWith w "gar" || strEndsWith w "çar"

/-- One accepted candidate of the selection walk: word, normalized
translation and assigned frequency rank. -/
structure Cand where
  infinitive : String
  translation : String
  rank : Nat
deriving DecidableEq

/-- Mutable state of the build script's candidate-selection walk over the
frequency-ordered word list. -/
structure SelState where
  selected : List Cand
  missingTranslations : List String
  orthographyCandidates : List Cand
  rank : Nat
deriving DecidableEq

/-- State of the selection walk before any word is processed. -/
def initialSelState : SelState :=
  ⟨[], [], [], 0⟩

/-- Main selection pass of the build script (the for loop over freqWords):
stop when maxVerbs main-pass verbs are selected; skip non-candidates; record
words without a translation; defer orthographic-alternation candidates to a
second pass; the shared rank counter is incremented for every accepted
candidate, deferred or not, and the incremented value is assigned. -/
def selectVerbs (maxVerbs : Nat) (translationMap : List (String × String)) :
    List String → SelState → SelState
  | [], st => st
  | word :: rest, st =>
    if st.selected.length ≥ maxVerbs then st
    else if !isVerbCandidate word then selectVerbs maxVerbs translationMap rest st
    else
      let translationRaw := (lookupA translationMap word).getD ""
      if translationRaw = "" then
        selectVerbs maxVerbs translationMap rest
          { st with missingTranslations := st.missingTranslations ++ [word] }
      else
        let translation := normalizeTranslation translationRaw
        if isOrthographic word then
          selectVerbs maxVerbs translationMap rest
            { st with
              orthographyCandidates := st.orthographyCandidates ++ [⟨word, translation, st.rank + 1⟩]
              rank := st.rank + 1 }
        else
          selectVerbs maxVerbs translationMap rest
            { st with
              selected := st.selected ++ [⟨word, translation, st.rank + 1⟩]
              rank := st.rank + 1 }

/-- Second pass of the build script: append deferred orthographic
candidates to the selection until the maximum verb count is reached. -/
def fillOrthography (maxVerbs : Nat) : List Cand → List Cand → List Cand
  | selected, [] => selected
  | selected, c :: cs =>
    if selected.length ≥ maxVerbs then selected
    else fillOrthography maxVerbs (selected ++ [c]) cs

/-- Complete candidate selection: main pass then orthographic fill, yielding
the verb list whose conjugations the build then fetches, in dataset order. -/
def assembleSelection (maxVerbs : Nat) (translationMap : List (String × String))
    (freqWords : List String) : List Cand :=
  let st := selectVerbs maxVerbs translationMap freqWords initialSelState
  fillOrthography maxVerbs st.selected st.orthographyCandidates

/-- Maximum verb count of the build script. -/
def MAX_VERBS : Nat := 500

/-- Curated irregular-verb set of the build script, in declaration order. -/
def IRREGULAR_VERBS : List String :=
  ["ser", "estar", "anar", "fer", "tenir", "venir", "dir", "veure", "conèixer",
   "creure", "poder", "voler", "saber", "haver", "dur", "posar", "prendre",
   "treure", "moure", "riure", "caure", "valer", "sortir", "seure", "asseure",
   "fondre", "sorprendre"]

/-- Manual translation fallbacks of the build script. -/
def MANUAL_TRANSLATIONS : List (String × String) :=
  [("ser", "to be"), ("estar", "to be"), ("anar", "to go"), ("fer", "to do"),
   ("tenir", "to have"), ("venir", "to come"), ("dir", "to say"),
   ("veure", "to see"), ("poder", "to be able"), ("voler", "to want"),
   ("saber", "to know"), ("haver", "to have"), ("posar", "to put"),
   ("sortir", "to go out")]

/-- JS truthiness fallback a || b for strings (empty string and undefined
are both falsy; an absent map entry is modelled as the empty string). -/
def jsOrS (a b : String) : String :=
  if a = "" then b else a

/-- Conjugation table shape: tense name to person-to-form block, in
insertion order. -/
abbrev TensesTable := List (String × List (String × String))

/-- One entry of the written verbs.json dataset. -/
structure VerbRecord where
  infinitive : String
  translation : String
  regular : Bool
  group : String
  rank : Nat
  tenses : Option TensesTable
deriving DecidableEq

/-- Record the build script pushes for one selected verb whose conjugation
fetch succeeded: translation fallback chain, regularity from the curated
set or the orthographic test, group, rank and the fetched table. -/
def mkVerbRecord (translationMap : List (String × String)) (c : Cand)
    (tenses : TensesTable) : VerbRecord :=
  let isIrregular := IRREGULAR_VERBS.contains c.infinitive || isOrthographic c.infinitive
  { infinitive := c.infinitive
    translation :=
      jsOrS (normalizeTranslation
        (jsOrS (jsOrS ((lookupA translationMap c.infinitive).getD "") c.translation)
          ((lookupA MANUAL_TRANSLATIONS c.infinitive).getD ""))) ""
    regular := !isIrregular
    group := getGroup c.infinitive
    rank := c.rank
    tenses := some tenses }

/-- Conjugation-fetch loop of the build script: conj models the awaited
outcome of fetchIrregularConjugations for one infinitive (ok with the
parsed table, or error with the thrown message). The try/catch appends the
infinitive and message to the missing-conjugations diagnostics and goes on
with the next verb; a successful verb is appended to the dataset. -/
def buildVerbs (conj : String → Except String TensesTable)
    (translationMap : List (String × String)) :
    List Cand → List VerbRecord × List String
  | [] => ([], [])
  | c :: cs =>
    match conj c.infinitive with
    | Except.ok tenses =>
      let rest := buildVerbs conj translationMap cs
      (mkVerbRecord translationMap c tenses :: rest.1, rest.2)
    | Except.error msg =>
      let rest := buildVerbs conj translationMap cs
      (rest.1, (c.infinitive ++ ": " ++ msg) :: rest.2)

/-- Tense enumeration of the dataset validator, in source order. -/
def VAL_TENSES : List String :=
  ["present", "imperfect", "future", "conditional", "subjunctive_present",
   "subjunctive_imperfect", "imperative"]

/-- Required persons per tense in the validator: every person for the six
required tenses, none for the imperative (defective verbs). The JS fallback
to PERSONS fires only for a tense outside the table, since an empty array is
truthy. -/
def REQUIRED_BY_TENSE : List (String × List String) :=
  [("present", PERSONS), ("imperfect", PERSONS), ("future", PERSONS),
   ("conditional", PERSONS), ("subjunctive_present", PERSONS),
   ("subjunctive_imperfect", PERSONS), ("imperative", [])]

/-- Validator per-person check (the body of the inner loop of
validateVerb): an issue when the cell is absent, or present but empty after
trimming (the non-string case of the JS check cannot arise in the typed
table). -/
def personCheck (tense : String) (tenseBlock : List (String × String)) (person : String) :
    Option String :=
  match lookupA tenseBlock person with
  | none => some ("missing-form:" ++ tense ++ ":" ++ person)
  | some value =>
    if strTrim value = "" then some ("missing-form:" ++ tense ++ ":" ++ person)
    else none

/-- Validator per-tense check (the body of the outer loop of validateVerb):
a missing block is one issue; otherwise every required person of the tense
is checked. -/
def tenseCheck (ts : TensesTable) (tense : String) : List String :=
  match lookupA ts tense with
  | none => ["missing-tense:" ++ tense]
  | some tenseBlock =>
    ((lookupA REQUIRED_BY_TENSE tense).getD PERSONS).filterMap (personCheck tense tenseBlock)

/-- Validator function validateVerb: issue strings for one dataset entry.
The entry is a typed record here, so the invalid-verb-object guard for
non-object array elements has no counterpart; a missing infinitive is the
empty string. The validator never reads the regular flag. -/
def validateVerb (verb : VerbRecord) : List String :=
  let issues := if verb.infinitive = "" then ["missing-infinitive"] else []
  match verb.tenses with
  | none => issues ++ ["missing-tenses"]
  | some ts => issues ++ VAL_TENSES.flatMap (tenseCheck ts)

/-- Validator main loop: the report lists, for every verb with issues, its
infinitive (or unknown when absent) with the issue strings; the script
exits non-zero exactly when this report is non-empty. -/
def validate (verbs : List VerbRecord) : List (String × List String) :=
  verbs.filterMap (fun verb =>
    let issues := validateVerb verb
    if issues.isEmpty then none
    else some (jsOrS verb.infinitive "unknown", issues))

/-- Collapse every run of whitespace to a single space (the JS replace of
the one-or-more-spaces regex with a space). The fuel argument, instantiated
with the input length, bounds the number of steps; every step consumes at
least one character, so the fuel never runs out. -/
def collapseSpacesGo : Nat → List Char → List Char
  | _, [] => []
  | 0, l => l
  | fuel + 1, c :: rest =>
    if isSpaceChar c then ' ' :: collapseSpacesGo fuel (rest.dropWhile isSpaceChar)
    else c :: collapseSpacesGo fuel rest

/-- Whitespace-run collapsing at full fuel. -/
def collapseSpaces (l : List Char) : List Char :=
  collapseSpacesGo l.length l

/-- Build-script function normalizeText: collapse whitespace runs then trim. -/
def normalizeText (value : String) : String :=
  strTrim (String.mk (collapseSpaces value.toList))

/-- Build-script function stripTags, the global replace of the regex
matching a less-than sign, one or more characters other than greater-than,
and a greater-than sign, with the empty string: at a less-than sign whose
first following greater-than sign is not immediately adjacent, drop through
that greater-than sign; otherwise keep the character and scan on. Fuel as
for collapseSpacesGo. -/
def stripTagsGo : Nat → List Char → List Char
  | _, [] => []
  | 0, l => l
  | fuel + 1, c :: rest =>
    if c = '<' then
      match rest.findIdx? (fun x => x = '>') with
      | some i => if i = 0 then c :: stripTagsGo fuel rest else stripTagsGo fuel (rest.drop (i + 1))
      | none => c :: stripTagsGo fuel rest
    else c :: stripTagsGo fuel rest

/-- Build-script function stripTags on strings. -/
def stripTags (value : String) : String :=
  String.mk (stripTagsGo value.toList.length value.toList)

/-- Split a character list at the first occurrence of a pattern, returning
the part before it and the part after it (none when the pattern does not
occur); this is the primitive behind the lazy regex scans below. -/
def splitAtSub? (pat : List Char) : List Char → Option (List Char × List Char)
  | [] => if pat.isEmpty then some ([], []) else none
  | c :: rest =>
    if List.isPrefixOf pat (c :: rest) then some ([], (c :: rest).drop pat.length)
    else
      match splitAtSub? pat rest with
      | some (pre, post) => some (c :: pre, post)
      | none => none

/-- Entry splitting of parseFreeDict: the global lazy regex from an entry
open tag through the first following entry close tag; each match is the
whole block including both tags, and scanning resumes after the close tag.
Every round consumes both tags, so fuel equal to the input length never
runs out. -/
def parseEntryBlocksGo : Nat → List Char → List (List Char)
  | 0, _ => []
  | fuel + 1, s =>
    match splitAtSub? "<entry".toList s with
    | none => []
    | some (_, afterOpen) =>
      match splitAtSub? "</entry>".toList afterOpen with
      | none => []
      | some (mid, afterClose) =>
        ("<entry".toList ++ mid ++ "</entry>".toList) :: parseEntryBlocksGo fuel afterClose

/-- Entry splitting at full fuel. -/
def parseEntryBlocks (s : List Char) : List (List Char) :=
  parseEntryBlocksGo s.length s

/-- First match of the regex of an open tag (with attributes), a lazy
capture, and the close tag: after the first opening, the attribute run is
everything before the first greater-than sign; the capture reaches the
first following close tag and, the dot not matching newlines, the match is
retried from the next opening when the capture would span a newline (or
when the tag is never closed after the opening, where a later opening
cannot be closed either but the scan mirrors the engine's restart). Every
retry consumes the opening, so fuel equal to the input length suffices. -/
def matchTagGo (tagName : List Char) : Nat → List Char → Option (List Char)
  | 0, _ => none
  | fuel + 1, s =>
    match splitAtSub? ('<' :: tagName) s with
    | none => none
    | some (_, afterOpen) =>
      let attrs := afterOpen.takeWhile (fun c => c ≠ '>')
      match afterOpen.drop attrs.length with
      | '>' :: body =>
        match splitAtSub? ('<' :: '/' :: (tagName ++ ['>'])) body with
        | some (content, _) =>
          if content.contains '\n' then matchTagGo tagName fuel afterOpen else some content
        | none => none
      | _ => matchTagGo tagName fuel afterOpen

/-- Tag-content matching at full fuel. -/
def matchTagContent (tagName s : List Char) : Option (List Char) :=
  matchTagGo tagName s.length s

/-- Does the character list start with the type attribute pattern (the
literal type equals sign, a quote character of either kind, the word trans,
and a quote character of either kind)? -/
def isTransAt (l : List Char) : Bool :=
  match l with
  | 't' :: 'y' :: 'p' :: 'e' :: '=' :: q1 :: 't' :: 'r' :: 'a' :: 'n' :: 's' :: q2 :: _ =>
    (q1 = '"' || q1 = '\'') && (q2 = '"' || q2 = '\'')
  | _ => false

/-- Suffix following the last occurrence of the type attribute pattern (the
greedy attribute run backtracks from the right, so the engine resumes after
the last occurrence). -/
def afterTransOcc : List Char → Option (List Char)
  | [] => none
  | c :: rest =>
    match afterTransOcc rest with
    | some r => some r
    | none => if isTransAt (c :: rest) then some ((c :: rest).drop 12) else none

/-- First match of the translation citation regex of parseFreeDict: a cit
open tag whose attribute run (before the first greater-than sign) contains
the type attribute pattern, then a lazy any-character gap to the first
quote open tag, whose capture is taken as for matchTagContent; when no
quote capture succeeds the scan moves to the next cit opening (the engine
would first backtrack to earlier type occurrences inside the same
attribute run, which needs several type attributes in one tag and does not
occur in this data). Fuel as for matchTagGo. -/
def citTransGo : Nat → List Char → Option (List Char)
  | 0, _ => none
  | fuel + 1, s =>
    match splitAtSub? "<cit".toList s with
    | none => none
    | some (_, afterOpen) =>
      let attrs := afterOpen.takeWhile (fun c => c ≠ '>')
      match afterTransOcc attrs with
      | some afterType =>
        match matchTagContent "quote".toList (afterType ++ afterOpen.drop attrs.length) with
        | some content => some content
        | none => citTransGo fuel afterOpen
      | none => citTransGo fuel afterOpen

/-- Translation-citation matching at full fuel. -/
def citTransQuote (s : List Char) : Option (List Char) :=
  citTransGo s.length s

/-- Per-entry extraction of parseFreeDict: headword from the orth tag
(tags stripped, whitespace normalized), part-of-speech filter (exactly v or
a word starting with verb, lowercased), and the first translation
quotation; entries missing any of these, or with an empty headword or
translation, are skipped. -/
def parseFreeDictEntry (entry : List Char) : Option (String × String) :=
  match matchTagContent "orth".toList entry with
  | none => none
  | some orthRaw =>
    let lemmaStr := normalizeText (stripTags (String.mk orthRaw))
    if lemmaStr = "" then none
    else
      match matchTagContent "pos".toList entry with
      | none => none
      | some posRaw =>
        let pos := jsToLower (normalizeText (stripTags (String.mk posRaw)))
        if !(pos = "v" || strStartsWith pos "verb") then none
        else
          match citTransQuote entry with
          | none => none
          | some quoteRaw =>
            let rawTranslation := normalizeText (stripTags (String.mk quoteRaw))
            if rawTranslation = "" then none
            else some (lemmaStr, rawTranslation)

/-- Loop body of parseFreeDict: a parsed entry is appended to the map only
when its lemma is not yet bound (first occurrence wins); unparsable entries
leave the map unchanged. -/
def insertEntry (map : List (String × String)) (e : List Char) : List (String × String) :=
  match parseFreeDictEntry e with
  | none => map
  | some (l, t) => if (lookupA map l).isSome then map else map ++ [(l, t)]

/-- Build-script function parseFreeDict: fold the parsed entries into a
lemma-to-translation map under the first-wins policy. -/
def parseFreeDict (teiText : String) : List (String × String) :=
  (parseEntryBlocks teiText.toList).foldl insertEntry []

/-- Person-to-form block holding the same non-empty form for all six
persons (the validator only inspects presence and non-emptiness). -/
def fullBlock (form : String) : List (String × String) :=
  PERSONS.map (fun p => (p, form))

/-- Concrete irregular dataset entry whose table has every required cell
present and non-empty and an imperative block, except that the tu form of
the future tense is absent. -/
def anarFutureMissingTu : VerbRecord :=
  { infinitive := "anar", translation := "to go", regular := false, group := "ar", rank := 1,
    tenses := some
      [("present", fullBlock "va"), ("imperfect", fullBlock "anava"),
       ("future",
        [("jo", "aniré"), ("ell", "anirà"), ("nosaltres", "anirem"),
         ("vosaltres", "anireu"), ("ells", "aniran")]),
       ("conditional", fullBlock "aniria"), ("subjunctive_present", fullBlock "vagi"),
       ("subjunctive_imperfect", fullBlock "anés"), ("imperative", fullBlock "ves")] }

/-- Concrete dataset entry whose six required tenses are complete but whose
table has no imperative block at all. -/
def anarNoImperativeBlock : VerbRecord :=
  { infinitive := "anar", translation := "to go", regular := false, group := "ar", rank := 1,
    tenses := some
      [("present", fullBlock "va"), ("imperfect", fullBlock "anava"),
       ("future", fullBlock "anirà"), ("conditional", fullBlock "aniria"),
       ("subjunctive_present", fullBlock "vagi"),
       ("subjunctive_imperfect", fullBlock "anés")] }

/-- Formalization of the claim phrase all required (tense, person) cells
present and non-empty: the entry has an infinitive and a tenses table, and
for each of the six required tenses (imperative has no required cells) a
block in which every person maps to a string that is non-empty after
trimming. -/
def hasAllRequiredCells (v : VerbRecord) : Bool :=
  v.infinitive ≠ "" &&
  (match v.tenses with
   | none => false
   | some ts =>
     (VAL_TENSES.filter (fun t => t ≠ "imperative")).all (fun tense =>
       match lookupA ts tense with
       | none => false
       | some block =>
         PERSONS.all (fun person =>
           match lookupA block person with
           | none => false
           | some value => strTrim value ≠ "")))

/-- Does the entry's table carry a block for the imperative tense (the
validator demands the block's presence even though no imperative person
form is required)? -/
def hasImperativeBlock (v : VerbRecord) : Bool :=
  match v.tenses with
  | none => false
  | some ts => (lookupA ts "imperative").isSome

/-- C7: The regular present-tense generator gives, for the person jo, parlo
for the ar infinitive parlar, dormo for the ir infinitive dormir, and perdo
for the er-class infinitive perdre, with the morphological group derived
from each infinitive ending. -/
theorem regularPresent_concrete_forms :
    getVerbGroup "parlar" = "ar" ∧
    regularPresent "parlar" (getVerbGroup "parlar") "jo" = "parlo" ∧
    getVerbGroup "dormir" = "ir" ∧
    regularPresent "dormir" (getVerbGroup "dormir") "jo" = "dormo" ∧
    getVerbGroup "perdre" = "er" ∧
    regularPresent "perdre" (getVerbGroup "perdre") "jo" = "perdo" := by
  decide

/-- C4 counterexample: a dataset entry marked regular whose conjugations
table is absent receives the missing-tenses issue, not an empty issue
list. -/
theorem validateVerb_regular_missing_tenses_cex :
    validateVerb
      { infinitive := "parlar", translation := "to speak", regular := true,
        group := "ar", rank := 1, tenses := none } = ["missing-tenses"] := by
  decide

/-- C4 amended: the validator never reads the regular flag, so regular and
irregular entries face the same completeness requirements, and an entry
without a conjugations table is always reported. -/
theorem validateVerb_ignores_regular_flag (v : VerbRecord) (b : Bool) :
    validateVerb { v with regular := b } = validateVerb v ∧
    (v.tenses = none → validateVerb v ≠ []) := by
  constructor
  · cases v
    rfl
  · intro h
    simp only [validateVerb, h]
    split <;> simp

/-- C4 witness: the amended theorem applied to a concrete regular entry
without a table. -/
theorem validateVerb_ignores_regular_flag_witness :
    validateVerb
        { infinitive := "parlar", translation := "to speak", regular := false,
          group := "ar", rank := 1, tenses := none } =
      validateVerb
        { infinitive := "parlar", translation := "to speak", regular := true,
          group := "ar", rank := 1, tenses := none } ∧
    validateVerb
        { infinitive := "parlar", translation := "to speak", regular := true,
          group := "ar", rank := 1, tenses := none } ≠ [] :=
  ⟨(validateVerb_ignores_regular_flag
      { infinitive := "parlar", translation := "to speak", regular := true,
        group := "ar", rank := 1, tenses := none } false).1,
   (validateVerb_ignores_regular_flag
      { infinitive := "parlar", translation := "to speak", regular := true,
        group := "ar", rank := 1, tenses := none } false).2 rfl⟩

/-- C5: with no enabled person, no enabled tense, or no verb passing the
verb-type filter, pickNextPrompt returns none (and, being a total function,
never fails). -/
theorem pickNextPrompt_none_of_no_valid (verbs : List Verb)
    (ep et vf : String → Bool) (lastKey : Option String) (rand : Nat → Nat × Nat × Nat)
    (h : enabledPersonList ep = [] ∨ enabledTenseListOf et = [] ∨ filteredVerbs verbs vf = []) :
    pickNextPrompt verbs ep et vf lastKey rand = none := by
  unfold pickNextPrompt
  rcases h with h | h | h <;> simp only [h, List.length_nil] <;> split <;> simp_all

/-- C5 witness: pickNextPrompt on a dataset with all persons disabled. -/
theorem pickNextPrompt_none_of_no_valid_witness :
    pickNextPrompt [⟨"parlar", "to speak", some true, none, none, none, none⟩]
      (fun _ => false) (fun _ => true) (fun _ => true) none (fun _ => (0, 0, 0)) = none :=
  pickNextPrompt_none_of_no_valid _ _ _ _ _ _ (Or.inl (by decide))

/-- C10 counterexample: at a hinted position the status is yellow even for
a typed character equal to the expected one, so green does not hold exactly
when the characters are equal case-insensitively. -/
theorem getStatus_hinted_equal_cex :
    getStatus "a" "a" true = "yellow" ∧ jsToLower "a" = jsToLower "a" ∧ "yellow" ≠ "green" := by
  decide

/-- C10 amended: green holds exactly when a character was typed, the
position is not hinted, and the characters are equal case-insensitively;
a non-hinted typed character that differs case-insensitively but has the
same diacritic-stripped base is yellow, never red; a hinted position with a
typed character is always yellow. -/
theorem getStatus_characterization (typedChar expectedChar : String) (isHinted : Bool) :
    (getStatus typedChar expectedChar isHinted = "green" ↔
      (typedChar ≠ "" ∧ isHinted = false ∧ jsToLower typedChar = jsToLower expectedChar)) ∧
    (typedChar ≠ "" → isHinted = false → jsToLower typedChar ≠ jsToLower expectedChar →
      baseChar (jsToLower typedChar) = baseChar (jsToLower expectedChar) →
      getStatus typedChar expectedChar isHinted = "yellow") ∧
    (typedChar ≠ "" → isHinted = true → getStatus typedChar expectedChar isHinted = "yellow") := by
  by_cases h1 : typedChar = ""
  · have hg : getStatus typedChar expectedChar isHinted = "empty" := by simp [getStatus, h1]
    refine ⟨?_, ?_, ?_⟩
    · rw [hg]
      constructor
      · intro he
        exact absurd he (by decide)
      · rintro ⟨hne, -, -⟩
        exact absurd h1 hne
    · intro hne
      exact absurd h1 hne
    · intro hne
      exact absurd h1 hne
  · cases isHinted with
    | true =>
      have hg : getStatus typedChar expectedChar true = "yellow" := by simp [getStatus, h1]
      refine ⟨?_, ?_, ?_⟩
      · rw [hg]
        constructor
        · intro he
          exact absurd he (by decide)
        · rintro ⟨-, hf, -⟩
          exact absurd hf (by decide)
      · intro _ hf
        exact absurd hf (by decide)
      · intro _ _
        exact hg
    | false =>
      by_cases h3 : jsToLower typedChar = jsToLower expectedChar
      · have hg : getStatus typedChar expectedChar false = "green" := by
          simp [getStatus, h1, h3]
        refine ⟨?_, ?_, ?_⟩
        · rw [hg]
          simp [h1, h3]
        · intro _ _ hne
          exact absurd h3 hne
        · intro _ ht
          exact absurd ht (by decide)
      · by_cases h4 : baseChar (jsToLower typedChar) = baseChar (jsToLower expectedChar)
        · have hg : getStatus typedChar expectedChar false = "yellow" := by
            simp [getStatus, h1, h3, h4]
          refine ⟨?_, ?_, ?_⟩
          · rw [hg]
            constructor
            · intro he
              exact absurd he (by decide)
            · rintro ⟨-, -, he⟩
              exact absurd he h3
          · intro _ _ _ _
            exact hg
          · intro _ ht
            exact absurd ht (by decide)
        · have hg : getStatus typedChar expectedChar false = "red" := by
            simp [getStatus, h1, h3, h4]
          refine ⟨?_, ?_, ?_⟩
          · rw [hg]
            constructor
            · intro he
              exact absurd he (by decide)
            · rintro ⟨-, -, he⟩
              exact absurd he h3
          · intro _ _ _ hb
            exact absurd hb h4
          · intro _ ht
            exact absurd ht (by decide)

/-- C10 witness: the characterization applied to a typed a against an
expected grave-accented a (yellow), a hinted position (yellow), and an
exact match (green). -/
theorem getStatus_characterization_witness :
    getStatus "a" "à" false = "yellow" ∧
    getStatus "b" "b" true = "yellow" ∧
    getStatus "a" "a" false = "green" :=
  ⟨(getStatus_characterization "a" "à" false).2.1 (by decide) rfl (by decide) (by decide),
   (getStatus_characterization "b" "b" true).2.2 (by decide) rfl,
   (getStatus_characterization "a" "a" false).1.mpr ⟨by decide, rfl, rfl⟩⟩

/-- Retry-loop invariant: when some draw inside the loop's remaining budget
differs from the last key, the loop result differs from the last key. -/
theorem pickLoop_avoids (fv : List Verb) (persons tenses : List String) (lastKey : String)
    (rand : Nat → Nat × Nat × Nat) :
    ∀ (fuel i : Nat),
      (∃ j, i ≤ j ∧ j ≤ i + fuel ∧ (drawPrompt fv persons tenses rand j).key ≠ lastKey) →
      (pickLoop fv persons tenses lastKey rand i fuel).key ≠ lastKey := by
  intro fuel
  induction fuel with
  | zero =>
    intro i h
    obtain ⟨j, hij, hji, hj⟩ := h
    have hj2 : j = i := by omega
    subst hj2
    simpa [pickLoop] using hj
  | succ fuel ih =>
    intro i h
    obtain ⟨j, hij, hji, hj⟩ := h
    simp only [pickLoop]
    by_cases hk : (drawPrompt fv persons tenses rand i).key = lastKey
    · rw [if_pos hk]
      apply ih (i + 1)
      refine ⟨j, ?_, by omega, hj⟩
      rcases Nat.eq_or_lt_of_le hij with he | hl
      · subst he
        exact absurd hk hj
      · omega
    · rw [if_neg hk]
      exact hk

/-- Retry-loop invariant: when every draw inside the loop's budget equals
the last key, the loop returns the final draw. -/
theorem pickLoop_all_eq (fv : List Verb) (persons tenses : List String) (lastKey : String)
    (rand : Nat → Nat × Nat × Nat) :
    ∀ (fuel i : Nat),
      (∀ j, i ≤ j → j ≤ i + fuel → (drawPrompt fv persons tenses rand j).key = lastKey) →
      pickLoop fv persons tenses lastKey rand i fuel = drawPrompt fv persons tenses rand (i + fuel) := by
  intro fuel
  induction fuel with
  | zero =>
    intro i h
    simp [pickLoop]
  | succ fuel ih =>
    intro i h
    have hk : (drawPrompt fv persons tenses rand i).key = lastKey := h i le_rfl (by omega)
    simp only [pickLoop]
    rw [if_pos hk, ih (i + 1) (fun j h1 h2 => h j (by omega) (by omega))]
    congr 1
    omega

/-- C1 counterexample: with one verb, the person jo and all four tenses
enabled there are four valid instances, yet when every random draw hits the
last key the retry loop gives up after ten draws and returns an instance
whose key equals lastKey; and with exactly one valid instance equal to the
last key, the result is that instance, not none. -/
theorem pickNextPrompt_repeats_lastKey_cex :
    1 < (listValidInstances [⟨"parlar", "to speak", some true, none, none, none, none⟩]
        (fun p => p = "jo") (fun _ => true) (fun _ => true)).length ∧
    (pickNextPrompt [⟨"parlar", "to speak", some true, none, none, none, none⟩]
        (fun p => p = "jo") (fun _ => true) (fun _ => true)
        (some "parlar-jo-present") (fun _ => (0, 0, 0))).map Prompt.key =
      some "parlar-jo-present" ∧
    (listValidInstances [⟨"parlar", "to speak", some true, none, none, none, none⟩]
        (fun p => p = "jo") (fun t => t = "present") (fun _ => true)).length = 1 ∧
    (pickNextPrompt [⟨"parlar", "to speak", some true, none, none, none, none⟩]
        (fun p => p = "jo") (fun t => t = "present") (fun _ => true)
        (some "parlar-jo-present") (fun _ => (0, 0, 0))).map Prompt.key =
      some "parlar-jo-present" := by
  decide

/-- C1 amended: pickNextPrompt returns none exactly when no person is
enabled, no tense is enabled, or no verb passes the verb-type filter;
otherwise it draws up to ten instances, so its result avoids the supplied
last key whenever at least one of the ten draws does, and when every draw
hits the last key it returns the tenth draw, key equal to lastKey included
(in particular when the only valid instance is the last one). -/
theorem pickNextPrompt_retry_behavior (verbs : List Verb) (ep et vf : String → Bool)
    (lk : String) (rand : Nat → Nat × Nat × Nat) :
    (pickNextPrompt verbs ep et vf (some lk) rand = none ↔
      (enabledPersonList ep = [] ∨ enabledTenseListOf et = [] ∨ filteredVerbs verbs vf = [])) ∧
    ((∃ j, j ≤ 9 ∧
        (drawPrompt (filteredVerbs verbs vf) (enabledPersonList ep) (enabledTenseListOf et) rand j).key ≠ lk) →
      ∀ p, pickNextPrompt verbs ep et vf (some lk) rand = some p → p.key ≠ lk) ∧
    ((∀ j, j ≤ 9 →
        (drawPrompt (filteredVerbs verbs vf) (enabledPersonList ep) (enabledTenseListOf et) rand j).key = lk) →
      ∀ p, pickNextPrompt verbs ep et vf (some lk) rand = some p →
        p = drawPrompt (filteredVerbs verbs vf) (enabledPersonList ep) (enabledTenseListOf et) rand 9) := by
  simp only [pickNextPrompt]
  by_cases h1 : (enabledPersonList ep).length = 0
  · rw [if_pos h1]
    refine ⟨⟨fun _ => Or.inl (List.length_eq_zero.mp h1), fun _ => rfl⟩, ?_, ?_⟩
    · intro _ p hp
      cases hp
    · intro _ p hp
      cases hp
  · rw [if_neg h1]
    by_cases h2 : (enabledTenseListOf et).length = 0
    · rw [if_pos h2]
      refine ⟨⟨fun _ => Or.inr (Or.inl (List.length_eq_zero.mp h2)), fun _ => rfl⟩, ?_, ?_⟩
      · intro _ p hp
        cases hp
      · intro _ p hp
        cases hp
    · rw [if_neg h2]
      by_cases h3 : (filteredVerbs verbs vf).length = 0
      · rw [if_pos h3]
        refine ⟨⟨fun _ => Or.inr (Or.inr (List.length_eq_zero.mp h3)), fun _ => rfl⟩, ?_, ?_⟩
        · intro _ p hp
          cases hp
        · intro _ p hp
          cases hp
      · rw [if_neg h3]
        refine ⟨⟨fun he => absurd he (by simp), ?_⟩, ?_, ?_⟩
        · rintro (he | he | he)
          · exact absurd (he ▸ rfl) h1
          · exact absurd (he ▸ rfl) h2
          · exact absurd (he ▸ rfl) h3
        · rintro ⟨j, hj9, hjne⟩ p hp
          cases hp
          exact pickLoop_avoids _ _ _ _ _ 9 0 ⟨j, Nat.zero_le j, by omega, hjne⟩
        · intro hall p hp
          cases hp
          exact pickLoop_all_eq _ _ _ _ _ 9 0 (fun j _ hj => hall j (by omega))

/-- C1 witness: the amended theorem at a concrete dataset and an oracle
whose draws differ from the last key, giving a result that avoids the
repeat. -/
theorem pickNextPrompt_retry_behavior_witness :
    pickNextPrompt [⟨"parlar", "to speak", some true, none, none, none, none⟩]
        (fun p => p = "jo") (fun _ => true) (fun _ => true)
        (some "parlar-jo-present") (fun _ => (0, 0, 1)) ≠ none ∧
    (∀ p, pickNextPrompt [⟨"parlar", "to speak", some true, none, none, none, none⟩]
        (fun p => p = "jo") (fun _ => true) (fun _ => true)
        (some "parlar-jo-present") (fun _ => (0, 0, 1)) = some p →
      p.key ≠ "parlar-jo-present") := by
  constructor
  · intro h
    have h2 := (pickNextPrompt_retry_behavior
      [⟨"parlar", "to speak", some true, none, none, none, none⟩]
      (fun p => p = "jo") (fun _ => true) (fun _ => true)
      "parlar-jo-present" (fun _ => (0, 0, 1))).1.mp h
    revert h2
    decide
  · exact (pickNextPrompt_retry_behavior
      [⟨"parlar", "to speak", some true, none, none, none, none⟩]
      (fun p => p = "jo") (fun _ => true) (fun _ => true)
      "parlar-jo-present" (fun _ => (0, 0, 1))).2.1 ⟨0, by decide, by decide⟩

/-- A toggle never empties its own key group: when some key of the group
was enabled before, some key is enabled after (keys listed without
duplicates). -/
theorem toggleFlags_keeps_nonempty (keys : List String) (hnd : keys.Nodup)
    (prev : String → Bool) (key : String) (h : keys.filter prev ≠ []) :
    keys.filter (toggleFlags keys prev key) ≠ [] := by
  show keys.filter
    (if prev key = true ∧ (keys.filter prev).length = 1 then prev
     else fun k => if k = key then !prev k else prev k) ≠ []
  split_ifs with hc
  · exact h
  · intro h0
    have hall : ∀ a ∈ keys, ¬ ((if a = key then !prev a else prev a) = true) := by
      intro a ha
      simpa using List.filter_eq_nil.mp h0 a ha
    obtain ⟨a, ha, hpa⟩ : ∃ a ∈ keys, prev a = true := by
      by_contra hno
      push_neg at hno
      apply h
      apply List.filter_eq_nil.mpr
      intro b hb
      simpa using hno b hb
    by_cases hak : a = key
    · subst hak
      have hcount : (keys.filter prev).length ≠ 1 := fun h1 => hc ⟨hpa, h1⟩
      have honly : ∀ b ∈ keys.filter prev, b = a := by
        intro b hb
        have hbk := List.mem_filter.mp hb
        by_contra hbne
        have hb2 := hall b hbk.1
        rw [if_neg hbne] at hb2
        exact hb2 hbk.2
      have hmem : a ∈ keys.filter prev := List.mem_filter.mpr ⟨ha, hpa⟩
      have hnf : (keys.filter prev).Nodup := hnd.filter _
      cases hfp : keys.filter prev with
      | nil =>
        rw [hfp] at hmem
        cases hmem
      | cons x xs =>
        rw [hfp] at honly hnf hcount
        cases xs with
        | nil => simp at hcount
        | cons y ys =>
          have hx : x = a := honly x (by simp)
          have hy : y = a := honly y (by simp)
          rw [hx, hy] at hnf
          simp at hnf
    · have hb2 := hall a ha
      rw [if_neg hak] at hb2
      exact hb2 hpa

/-- A toggle of the last enabled key of its group is rejected: the state is
returned unchanged. -/
theorem toggleFlags_rejects_last (keys : List String) (prev : String → Bool) (key : String)
    (h1 : prev key = true) (h2 : (keys.filter prev).length = 1) :
    toggleFlags keys prev key = prev := by
  show (if prev key = true ∧ (keys.filter prev).length = 1 then prev
        else fun k => if k = key then !prev k else prev k) = prev
  rw [if_pos ⟨h1, h2⟩]

/-- C2 counterexample: with a dataset holding only a regular verb and both
verb-type toggles on, toggling regular off is applied (the pair still has
two enabled keys), yet it turns hasAnyValidInstance from true to false, so
a toggle that makes hasAnyValidInstance false is not rejected. -/
theorem toggleVerbFilter_valid_instances_cex :
    hasAnyValidInstance [⟨"parlar", "to speak", some true, none, none, none, none⟩]
        (fun _ => true) (fun _ => true) (fun _ => true) = true ∧
    toggleVerbFilter (fun _ => true) "regular" "regular" = false ∧
    hasAnyValidInstance [⟨"parlar", "to speak", some true, none, none, none, none⟩]
        (fun _ => true) (fun _ => true) (toggleVerbFilter (fun _ => true) "regular") = false := by
  decide

/-- C2 amended: each toggle (person, tense, verb-type) preserves the
invariant that its own group keeps at least one enabled key, and disabling
the last enabled key of a group is rejected with the state unchanged; the
dataset and the other groups are not consulted, so hasAnyValidInstance may
still become false. -/
theorem toggles_reject_last_and_preserve (prev : String → Bool) (key : String) :
    (PERSONS.filter prev ≠ [] → PERSONS.filter (togglePerson prev key) ≠ []) ∧
    (TENSES.filter prev ≠ [] → TENSES.filter (toggleTense prev key) ≠ []) ∧
    (VERB_FILTER_KEYS.filter prev ≠ [] → VERB_FILTER_KEYS.filter (toggleVerbFilter prev key) ≠ []) ∧
    (prev key = true → (PERSONS.filter prev).length = 1 → togglePerson prev key = prev) ∧
    (prev key = true → (TENSES.filter prev).length = 1 → toggleTense prev key = prev) ∧
    (prev key = true → (VERB_FILTER_KEYS.filter prev).length = 1 → toggleVerbFilter prev key = prev) :=
  ⟨toggleFlags_keeps_nonempty PERSONS (by decide) prev key,
   toggleFlags_keeps_nonempty TENSES (by decide) prev key,
   toggleFlags_keeps_nonempty VERB_FILTER_KEYS (by decide) prev key,
   toggleFlags_rejects_last PERSONS prev key,
   toggleFlags_rejects_last TENSES prev key,
   toggleFlags_rejects_last VERB_FILTER_KEYS prev key⟩

/-- C2 witness: preservation applied with all persons enabled, and the
rejection applied to a state with only the present tense enabled. -/
theorem toggles_reject_last_and_preserve_witness :
    PERSONS.filter (togglePerson (fun _ => true) "jo") ≠ [] ∧
    toggleTense (fun t => t == "present") "present" = (fun t => t == "present") :=
  ⟨(toggles_reject_last_and_preserve (fun _ => true) "jo").1 (by decide),
   (toggles_reject_last_and_preserve (fun t => t == "present") "present").2.2.2.2.1
     (by decide) (by decide)⟩

/-- C3 counterexample: an orthographic-alternation verb earlier in the
frequency list than a plain verb is deferred to the second pass with its
already-assigned smaller rank, so the assembled dataset carries ranks 2, 1,
which is not strictly increasing. -/
theorem assembleSelection_rank_order_cex :
    (assembleSelection 500 [("jugar", "play"), ("parlar", "speak")]
        ["jugar", "parlar"]).map Cand.rank = [2, 1] ∧
    ¬ List.Pairwise (fun a b : Nat => a < b) [2, 1] := by
  decide

/-- Selection-walk invariant: ranks in both accumulated candidate lists are
positive, bounded by the running counter, and strictly increasing within
each list; the walk preserves all four facts. -/
theorem selectVerbs_invariant (maxVerbs : Nat) (tmap : List (String × String)) :
    ∀ (words : List String) (st : SelState),
      (∀ c ∈ st.selected, 0 < c.rank ∧ c.rank ≤ st.rank) →
      (∀ c ∈ st.orthographyCandidates, 0 < c.rank ∧ c.rank ≤ st.rank) →
      List.Pairwise (fun a b => a.rank < b.rank) st.selected →
      List.Pairwise (fun a b => a.rank < b.rank) st.orthographyCandidates →
      (∀ c ∈ (selectVerbs maxVerbs tmap words st).selected,
          0 < c.rank ∧ c.rank ≤ (selectVerbs maxVerbs tmap words st).rank) ∧
      (∀ c ∈ (selectVerbs maxVerbs tmap words st).orthographyCandidates,
          0 < c.rank ∧ c.rank ≤ (selectVerbs maxVerbs tmap words st).rank) ∧
      List.Pairwise (fun a b => a.rank < b.rank) (selectVerbs maxVerbs tmap words st).selected ∧
      List.Pairwise (fun a b => a.rank < b.rank) (selectVerbs maxVerbs tmap words st).orthographyCandidates := by
  intro words
  induction words with
  | nil =>
    intro st h1 h2 h3 h4
    simp only [selectVerbs]
    exact ⟨h1, h2, h3, h4⟩
  | cons word rest ih =>
    intro st h1 h2 h3 h4
    simp only [selectVerbs]
    by_cases hmax : st.selected.length ≥ maxVerbs
    · rw [if_pos hmax]
      exact ⟨h1, h2, h3, h4⟩
    · rw [if_neg hmax]
      by_cases hcand : isVerbCandidate word
      · rw [if_neg (by simp [hcand])]
        by_cases hraw : (lookupA tmap word).getD "" = ""
        · rw [if_pos hraw]
          exact ih _ h1 h2 h3 h4
        · rw [if_neg hraw]
          by_cases hortho : isOrthographic word
          · rw [if_pos hortho]
            apply ih
            · intro c hc
              exact ⟨(h1 c hc).1, le_trans (h1 c hc).2 (Nat.le_succ _)⟩
            · intro c hc
              rcases List.mem_append.mp hc with hc | hc
              · exact ⟨(h2 c hc).1, le_trans (h2 c hc).2 (Nat.le_succ _)⟩
              · simp only [List.mem_singleton] at hc
                subst hc
                exact ⟨Nat.succ_pos _, le_refl _⟩
            · exact h3
            · apply List.pairwise_append.mpr
              refine ⟨h4, List.pairwise_singleton _ _, ?_⟩
              intro a ha b hb
              simp only [List.mem_singleton] at hb
              subst hb
              have := (h2 a ha).2
              simp only []
              omega
          · rw [if_neg hortho]
            apply ih
            · intro c hc
              rcases List.mem_append.mp hc with hc | hc
              · exact ⟨(h1 c hc).1, le_trans (h1 c hc).2 (Nat.le_succ _)⟩
              · simp only [List.mem_singleton] at hc
                subst hc
                exact ⟨Nat.succ_pos _, le_refl _⟩
            · intro c hc
              exact ⟨(h2 c hc).1, le_trans (h2 c hc).2 (Nat.le_succ _)⟩
            · apply List.pairwise_append.mpr
              refine ⟨h3, List.pairwise_singleton _ _, ?_⟩
              intro a ha b hb
              simp only [List.mem_singleton] at hb
              subst hb
              have := (h1 a ha).2
              simp only []
              omega
            · exact h4
      · rw [if_pos (by simp [hcand])]
        exact ih _ h1 h2 h3 h4

/-- The orthographic fill appends some prefix of the deferred candidates to
the main selection. -/
theorem fillOrthography_eq_append (maxVerbs : Nat) :
    ∀ (rest selected : List Cand),
      ∃ k, fillOrthography maxVerbs selected rest = selected ++ rest.take k := by
  intro rest
  induction rest with
  | nil =>
    intro selected
    exact ⟨0, by simp [fillOrthography]⟩
  | cons c cs ih =>
    intro selected
    simp only [fillOrthography]
    by_cases hmax : selected.length ≥ maxVerbs
    · rw [if_pos hmax]
      exact ⟨0, by simp⟩
    · rw [if_neg hmax]
      obtain ⟨k, hk⟩ := ih (selected ++ [c])
      refine ⟨k + 1, ?_⟩
      rw [hk]
      simp [List.append_assoc]

/-- C3 amended: every rank in the assembled dataset is positive, ranks are
strictly increasing within the main-pass segment and within the deferred
orthographic segment, and the assembled dataset is exactly the main-pass
verbs followed by a prefix of the deferred orthographic verbs — but across
the junction the combined sequence need not be increasing. -/
theorem assembleSelection_rank_structure (maxVerbs : Nat) (tmap : List (String × String))
    (freqWords : List String) :
    (∀ c ∈ assembleSelection maxVerbs tmap freqWords, 0 < c.rank) ∧
    List.Pairwise (fun a b => a.rank < b.rank)
      (selectVerbs maxVerbs tmap freqWords initialSelState).selected ∧
    List.Pairwise (fun a b => a.rank < b.rank)
      (selectVerbs maxVerbs tmap freqWords initialSelState).orthographyCandidates ∧
    ∃ k, assembleSelection maxVerbs tmap freqWords =
      (selectVerbs maxVerbs tmap freqWords initialSelState).selected ++
      (selectVerbs maxVerbs tmap freqWords initialSelState).orthographyCandidates.take k := by
  have hinv := selectVerbs_invariant maxVerbs tmap freqWords initialSelState
    (by simp [initialSelState]) (by simp [initialSelState])
    (by simp [initialSelState]) (by simp [initialSelState])
  obtain ⟨k, hk⟩ := fillOrthography_eq_append maxVerbs
    (selectVerbs maxVerbs tmap freqWords initialSelState).orthographyCandidates
    (selectVerbs maxVerbs tmap freqWords initialSelState).selected
  refine ⟨?_, hinv.2.2.1, hinv.2.2.2, ⟨k, hk⟩⟩
  intro c hc
  unfold assembleSelection at hc
  rw [hk] at hc
  rcases List.mem_append.mp hc with hc | hc
  · exact (hinv.1 c hc).1
  · exact (hinv.2.1 c (List.take_subset _ _ hc)).1

/-- C9: one conjugation-fetch failure in the middle of the selected list is
recorded as the infinitive-and-message diagnostic, the verb is excluded
from the dataset, and the verbs before and after it are processed exactly
as they would be on their own. -/
theorem buildVerbs_failure_isolated (conj : String → Except String TensesTable)
    (tmap : List (String × String)) (pre post : List Cand) (c : Cand) (msg : String)
    (h : conj c.infinitive = Except.error msg) :
    buildVerbs conj tmap (pre ++ c :: post) =
      ((buildVerbs conj tmap pre).1 ++ (buildVerbs conj tmap post).1,
       (buildVerbs conj tmap pre).2 ++
         (c.infinitive ++ ": " ++ msg) :: (buildVerbs conj tmap post).2) := by
  induction pre with
  | nil =>
    simp only [List.nil_append, buildVerbs, h]
  | cons a pre ih =>
    cases h2 : conj a.infinitive with
    | ok tenses => simp [buildVerbs, h2, ih]
    | error m2 => simp [buildVerbs, h2, ih]

/-- C9 witness: the theorem applied to a three-verb selection whose middle
verb fails with a concrete message. -/
theorem buildVerbs_failure_isolated_witness :
    buildVerbs (fun s => if s = "anar" then Except.error "boom" else Except.ok []) []
        ([⟨"parlar", "to speak", 1⟩] ++ ⟨"anar", "to go", 2⟩ :: [⟨"dormir", "to sleep", 3⟩]) =
      ((buildVerbs (fun s => if s = "anar" then Except.error "boom" else Except.ok []) []
          [⟨"parlar", "to speak", 1⟩]).1 ++
        (buildVerbs (fun s => if s = "anar" then Except.error "boom" else Except.ok []) []
          [⟨"dormir", "to sleep", 3⟩]).1,
       (buildVerbs (fun s => if s = "anar" then Except.error "boom" else Except.ok []) []
          [⟨"parlar", "to speak", 1⟩]).2 ++
        ("anar" ++ ": " ++ "boom") ::
          (buildVerbs (fun s => if s = "anar" then Except.error "boom" else Except.ok []) []
            [⟨"dormir", "to sleep", 3⟩]).2) :=
  buildVerbs_failure_isolated
    (fun s => if s = "anar" then Except.error "boom" else Except.ok []) []
    [⟨"parlar", "to speak", 1⟩] [⟨"dormir", "to sleep", 3⟩] ⟨"anar", "to go", 2⟩ "boom" rfl

/-- C6 counterexample: an entry with every required (tense, person) cell
present and non-empty but no imperative block at all is still reported (the
validator demands a block for every tense of its enumeration, imperative
included), so the all-required-cells-complete dataset is not issue-free. -/
theorem validate_missing_imperative_cex :
    hasAllRequiredCells anarNoImperativeBlock = true ∧
    validate [anarNoImperativeBlock] = [("anar", ["missing-tense:imperative"])] := by
  decide

/-- A concatenation of empty per-element lists is empty. -/
theorem flatMap_eq_nil_of_forall {α β : Type} (l : List α) (f : α → List β)
    (h : ∀ a ∈ l, f a = []) : l.flatMap f = [] := by
  induction l with
  | nil => rfl
  | cons a l ih =>
    rw [List.flatMap_cons, h a (by simp), List.nil_append]
    exact ih (fun b hb => h b (by simp [hb]))

/-- A tense whose block is present and whose required persons all resolve
to non-empty trimmed forms produces no issue. -/
theorem tenseCheck_nil (ts : TensesTable) (tense : String) (block : List (String × String))
    (hreq : (lookupA REQUIRED_BY_TENSE tense).getD PERSONS = PERSONS)
    (hb : lookupA ts tense = some block)
    (hps : ∀ person ∈ PERSONS, ∃ value, lookupA block person = some value ∧ strTrim value ≠ "") :
    tenseCheck ts tense = [] := by
  unfold tenseCheck
  rw [hb, hreq]
  apply List.filterMap_eq_nil.mpr
  intro person hp
  obtain ⟨value, hv, hne⟩ := hps person hp
  unfold personCheck
  rw [hv]
  dsimp only
  rw [if_neg hne]

/-- An entry with all required cells present and non-empty and an
imperative block passes validateVerb without issues. -/
theorem validateVerb_eq_nil_of_complete (v : VerbRecord)
    (hcells : hasAllRequiredCells v = true) (himp : hasImperativeBlock v = true) :
    validateVerb v = [] := by
  rw [hasAllRequiredCells, Bool.and_eq_true] at hcells
  obtain ⟨hinf, hrest⟩ := hcells
  rw [hasImperativeBlock] at himp
  cases hts : v.tenses with
  | none =>
    rw [hts] at hrest
    cases hrest
  | some ts =>
    rw [hts] at hrest himp
    dsimp only at hrest himp
    have hall := List.all_eq_true.mp hrest
    have htense : ∀ tense ∈ VAL_TENSES, tense ≠ "imperative" → tenseCheck ts tense = [] := by
      intro tense hmem hne
      have hreq : (lookupA REQUIRED_BY_TENSE tense).getD PERSONS = PERSONS := by
        simp only [VAL_TENSES, List.mem_cons, List.not_mem_nil, or_false] at hmem
        rcases hmem with rfl | rfl | rfl | rfl | rfl | rfl | rfl
        · rfl
        · rfl
        · rfl
        · rfl
        · rfl
        · rfl
        · exact absurd rfl hne
      have hm2 : tense ∈ VAL_TENSES.filter (fun t => t ≠ "imperative") :=
        List.mem_filter.mpr ⟨hmem, by simpa using hne⟩
      have hf := hall tense hm2
      cases hlb : lookupA ts tense with
      | none =>
        rw [hlb] at hf
        cases hf
      | some block =>
        rw [hlb] at hf
        apply tenseCheck_nil ts tense block hreq hlb
        intro person hp
        have hpf := List.all_eq_true.mp hf person hp
        cases hlp : lookupA block person with
        | none =>
          rw [hlp] at hpf
          cases hpf
        | some value =>
          rw [hlp] at hpf
          exact ⟨value, rfl, by simpa using hpf⟩
    have hia : tenseCheck ts "imperative" = [] := by
      unfold tenseCheck
      cases hlb : lookupA ts "imperative" with
      | none =>
        rw [hlb] at himp
        simp at himp
      | some block =>
        rfl
    unfold validateVerb
    rw [hts]
    dsimp only
    rw [if_neg (by simpa using hinf), List.nil_append]
    apply flatMap_eq_nil_of_forall
    intro tense hmem
    by_cases hne : tense = "imperative"
    · subst hne
      exact hia
    · exact htense tense hmem hne

/-- A dataset whose every entry passes validateVerb yields an empty report. -/
theorem validate_eq_nil (ds : List VerbRecord) (h : ∀ v ∈ ds, validateVerb v = []) :
    validate ds = [] := by
  induction ds with
  | nil => rfl
  | cons v ds ih =>
    have hv := h v (List.mem_cons_self v ds)
    have hrest := ih (fun w hw => h w (List.mem_cons_of_mem v hw))
    unfold validate at hrest ⊢
    rw [List.filterMap_cons]
    simp only [hv, List.isEmpty_nil]
    exact hrest

/-- C6: on the dataset holding one irregular verb whose table lacks exactly
the tu cell of the future tense the validator reports exactly one issue
naming that verb, tense and person; and a dataset of entries whose required
cells are all present and non-empty, with a block for each of the seven
tenses (the imperative block may be empty), yields an empty report. -/
theorem validate_future_tu_and_complete (ds : List VerbRecord)
    (h : ∀ v ∈ ds, hasAllRequiredCells v = true ∧ hasImperativeBlock v = true) :
    validate [anarFutureMissingTu] = [("anar", ["missing-form:future:tu"])] ∧
    validate ds = [] := by
  constructor
  · decide
  · exact validate_eq_nil ds
      (fun v hv => validateVerb_eq_nil_of_complete v (h v hv).1 (h v hv).2)

/-- C6 witness: the theorem applied to a one-entry dataset whose table is
fully complete. -/
theorem validate_future_tu_and_complete_witness :
    validate [anarFutureMissingTu] = [("anar", ["missing-form:future:tu"])] ∧
    validate
      [{ infinitive := "anar", translation := "to go", regular := false, group := "ar", rank := 1,
         tenses := some
           [("present", fullBlock "va"), ("imperfect", fullBlock "anava"),
            ("future", fullBlock "anirà"), ("conditional", fullBlock "aniria"),
            ("subjunctive_present", fullBlock "vagi"),
            ("subjunctive_imperfect", fullBlock "anés"),
            ("imperative", fullBlock "ves")] }] = [] :=
  validate_future_tu_and_complete
    [{ infinitive := "anar", translation := "to go", regular := false, group := "ar", rank := 1,
       tenses := some
         [("present", fullBlock "va"), ("imperfect", fullBlock "anava"),
          ("future", fullBlock "anirà"), ("conditional", fullBlock "aniria"),
          ("subjunctive_present", fullBlock "vagi"),
          ("subjunctive_imperfect", fullBlock "anés"),
          ("imperative", fullBlock "ves")] }]
    (by decide)

/-- Lookup distributes over appended association lists, preferring the
first list. -/
theorem lookupA_append {α : Type} (m1 m2 : List (String × α)) (l : String) :
    lookupA (m1 ++ m2) l =
      match lookupA m1 l with
      | some t => some t
      | none => lookupA m2 l := by
  induction m1 with
  | nil => rfl
  | cons p m1 ih =>
    by_cases h : p.1 = l
    · unfold lookupA
      rw [List.cons_append, List.find?_cons_of_pos _ (by simpa using h),
        List.find?_cons_of_pos _ (by simpa using h)]
      rfl
    · unfold lookupA
      rw [List.cons_append, List.find?_cons_of_neg _ (by simpa using h),
        List.find?_cons_of_neg _ (by simpa using h)]
      exact ih

/-- Lookup after the first-wins fold: an entry already bound in the
accumulator is kept; an unbound lemma is bound to its first parsed
occurrence among the remaining entries. -/
theorem foldInsert_lookup :
    ∀ (es : List (List Char)) (map : List (String × String)) (l : String),
      lookupA (es.foldl insertEntry map) l =
        match lookupA map l with
        | some t => some t
        | none => ((es.filterMap parseFreeDictEntry).find? (fun p => p.1 = l)).map (fun p => p.2) := by
  intro es
  induction es with
  | nil =>
    intro map l
    rw [List.foldl_nil, List.filterMap_nil, List.find?_nil]
    cases lookupA map l <;> rfl
  | cons e es ih =>
    intro map l
    rw [List.foldl_cons]
    cases hpe : parseFreeDictEntry e with
    | none =>
      have hstep : insertEntry map e = map := by
        unfold insertEntry
        rw [hpe]
      have hfm : (e :: es).filterMap parseFreeDictEntry = es.filterMap parseFreeDictEntry := by
        rw [List.filterMap_cons, hpe]
      rw [hstep, ih, hfm]
    | some kt =>
      obtain ⟨k, t⟩ := kt
      have hfm : (e :: es).filterMap parseFreeDictEntry =
          (k, t) :: es.filterMap parseFreeDictEntry := by
        rw [List.filterMap_cons, hpe]
      rw [hfm]
      by_cases hk : (lookupA map k).isSome
      · have hstep : insertEntry map e = map := by
          unfold insertEntry
          rw [hpe]
          dsimp only
          rw [if_pos hk]
        rw [hstep, ih]
        cases hml : lookupA map l with
        | some t2 => rfl
        | none =>
          have hkl : ¬ (k = l) := by
            intro he
            subst he
            rw [hml] at hk
            simp at hk
          rw [List.find?_cons_of_neg _ (by simpa using hkl)]
      · have hstep : insertEntry map e = map ++ [(k, t)] := by
          unfold insertEntry
          rw [hpe]
          dsimp only
          rw [if_neg hk]
        rw [hstep, ih, lookupA_append]
        cases hml : lookupA map l with
        | some t2 => rfl
        | none =>
          by_cases hkl : k = l
          · subst hkl
            rw [List.find?_cons_of_pos _ (by simp)]
            have hone : lookupA [(k, t)] k = some t := by
              simp [lookupA]
            rw [hone]
            rfl
          · rw [List.find?_cons_of_neg _ (by simpa using hkl)]
            have hone : lookupA [(k, t)] l = none := by
              simp [lookupA, hkl]
            rw [hone]

/-- C8: when the parsed verb entries of a TEI input contain a lemma twice
with different translations, the resulting map binds the lemma to the
first-encountered translation, and the later duplicate never overwrites
it. -/
theorem parseFreeDict_first_wins (tei : String) (l t1 t2 : String)
    (h1 : ((parseEntryBlocks tei.toList).filterMap parseFreeDictEntry).find?
        (fun p => p.1 = l) = some (l, t1))
    (h2 : (l, t2) ∈ (parseEntryBlocks tei.toList).filterMap parseFreeDictEntry)
    (h3 : t2 ≠ t1) :
    lookupA (parseFreeDict tei) l = some t1 ∧ lookupA (parseFreeDict tei) l ≠ some t2 := by
  have hl : lookupA (parseFreeDict tei) l = some t1 := by
    unfold parseFreeDict
    rw [foldInsert_lookup]
    show (((parseEntryBlocks tei.toList).filterMap parseFreeDictEntry).find?
        (fun p => p.1 = l)).map (fun p => p.2) = some t1
    rw [h1]
    rfl
  refine ⟨hl, ?_⟩
  rw [hl]
  intro he
  exact h3 (Option.some.inj he).symm

set_option maxRecDepth 10000 in
/-- C8 witness: a TEI input with two verb entries for the lemma anar, first
translated to go and later to walk; the map keeps to go. -/
theorem parseFreeDict_first_wins_witness :
    lookupA (parseFreeDict "<entry><orth>anar</orth><pos>v</pos><cit type=\"trans\"><quote>to go</quote></cit></entry><entry><orth>anar</orth><pos>v</pos><cit type=\"trans\"><quote>to walk</quote></cit></entry>") "anar" = some "to go" ∧
    lookupA (parseFreeDict "<entry><orth>anar</orth><pos>v</pos><cit type=\"trans\"><quote>to go</quote></cit></entry><entry><orth>anar</orth><pos>v</pos><cit type=\"trans\"><quote>to walk</quote></cit></entry>") "anar" ≠ some "to walk" :=
  parseFreeDict_first_wins
    "<entry><orth>anar</orth><pos>v</pos><cit type=\"trans\"><quote>to go</quote></cit></entry><entry><orth>anar</orth><pos>v</pos><cit type=\"trans\"><quote>to walk</quote></cit></entry>"
    "anar" "to go" "to walk" (by decide) (by decide) (by decide)
